import Mathlib

/-!
Verification of the `pipeline` repository's typed path-addressed YAML
accessor (`src/error.rs` and `src/yutil.rs`), as a shallow embedding.

The embedding mirrors the source:
- `Pipeline` is the unified error type of `src/error.rs`.
- `Value` models the external `serde_yaml::Value` tagged union that the
  accessor borrows (the spec treats the value model as an external
  collaborator with variants Null / Bool / Number / String / Sequence /
  Mapping, mappings being ordered association lists of key-value pairs).
- `get_value_by_path` and `get_typed_value_by_path` are the two free
  functions of `src/yutil.rs`; `FromYaml` models the conversion trait,
  with one strategy value per `impl` generated by the two macros.
-/

/-- Model of `serde_yaml`'s number payload: an unsigned 64-bit integer, a
negative signed 64-bit integer, or a binary64 float. Float payloads are
represented by their IEEE-754 bit pattern as a `Nat`; no claim in this
development inspects float arithmetic, only which variant a number has. -/
inductive Number where
  | posInt (n : Nat)
  | negInt (i : Int)
  | float (bits : Nat)
deriving DecidableEq

/-- Model of `serde_yaml::Value`, the external tagged-union value tree that
`src/yutil.rs` traverses. A `Mapping` is an insertion-ordered association
list of key-value pairs (keys are arbitrary values, as in `serde_yaml`). -/
inductive Value where
  | null
  | bool (b : Bool)
  | number (n : Number)
  | string (s : String)
  | sequence (xs : List Value)
  | mapping (m : List (Value × Value))

/-- Equality of a `Value::String(key)` probe with an entry key: a string
probe is equal to an entry key exactly when that key is the `String`
variant with the same contents (the restriction of `serde_yaml`'s
`PartialEq` on `Value` to string probes). -/
def stringKeyMatches (key : String) : Value → Bool
  | .string s => s == key
  | _ => false

/-- Model of `Mapping::get(&Value::String(key))` from
`get_value_by_path` (src/yutil.rs:93-94): look the string `key` up in the
mapping by value equality, returning the first matching entry's value. -/
def mapGet (m : List (Value × Value)) (key : String) : Option Value :=
  (m.find? (fun p => stringKeyMatches key p.1)).map (fun p => p.2)

/-- Model of Rust's `str::split('.')` (src/yutil.rs:91) on the character
list of the path: splitting the empty input yields one empty segment, and
every separator character contributes a segment boundary. -/
def splitDot : List Char → List (List Char)
  | [] => [[]]
  | c :: cs =>
    if c = '.' then [] :: splitDot cs
    else
      match splitDot cs with
      | [] => [[c]]
      | s :: rest => (c :: s) :: rest

/-- The list of path segments produced by `path.split('.')`. -/
def segments (path : String) : List String :=
  (splitDot path.data).map (fun l => String.mk l)

/-- Model of the error type `Pipeline` of `src/error.rs`: a short message
and an optional verbose diagnostic. -/
structure Pipeline where
  error_string : String
  debug_string : Option String
deriving DecidableEq

/-- Model of `Pipeline::new` (src/error.rs:20-25): no diagnostic. -/
def Pipeline.new (e : String) : Pipeline :=
  { error_string := e, debug_string := none }

/-- Model of `Pipeline::new_debug` (src/error.rs:29-34): message plus a
diagnostic string. -/
def Pipeline.new_debug (e d : String) : Pipeline :=
  { error_string := e, debug_string := some d }

mutual

/-- Model of the `Debug` rendering (`format!("{:?}", value)`) of a value,
used only to build diagnostic strings. The exact text of the external
crate's `Debug` implementation is not load-bearing for any claim; this
rendering is structurally faithful (each variant is tagged and children
are rendered recursively). -/
def debugRender : Value → String
  | .null => "Null"
  | .bool b => "Bool(" ++ (if b then "true" else "false") ++ ")"
  | .number (.posInt n) => "Number(" ++ Nat.repr n ++ ")"
  | .number (.negInt i) => "Number(" ++ Int.repr i ++ ")"
  | .number (.float bits) => "Number(f64 bits " ++ Nat.repr bits ++ ")"
  | .string s => "String(" ++ String.quote s ++ ")"
  | .sequence xs => "Sequence [" ++ renderList xs ++ "]"
  | .mapping m => "Mapping \x7b" ++ renderEntries m ++ "\x7d"

/-- Comma-separated rendering of a sequence's elements. -/
def renderList : List Value → String
  | [] => ""
  | [x] => debugRender x
  | x :: xs => debugRender x ++ ", " ++ renderList xs

/-- Comma-separated rendering of a mapping's entries. -/
def renderEntries : List (Value × Value) → String
  | [] => ""
  | [(k, v)] => debugRender k ++ ": " ++ debugRender v
  | (k, v) :: rest => debugRender k ++ ": " ++ debugRender v ++ ", " ++ renderEntries rest

end

/-- The error built by `get_value_by_path` when the fold breaks
(src/yutil.rs:104-107): the message interpolates the path, the diagnostic
is a debug rendering of the root value. -/
def pathError (value : Value) (path : String) : Pipeline :=
  Pipeline.new_debug
    ("Path `" ++ path ++ "` was not found within the input object")
    ("Input object: " ++ debugRender value)

/-- The `try_fold` loop of `get_value_by_path` (src/yutil.rs:91-100):
starting from the accumulator, each segment requires the current node to
be a `Mapping` and looks the segment up as a key; the first non-mapping
node or missing key breaks the fold (`none`); consuming every segment
yields the final accumulator. -/
def foldSegs : Value → List String → Option Value
  | acc, [] => some acc
  | acc, key :: rest =>
    match acc with
    | .mapping m =>
      match mapGet m key with
      | some v => foldSegs v rest
      | none => none
    | _ => none

/-- Model of `get_value_by_path` (src/yutil.rs:90-109): split the path on
dots, fold over the segments, and turn a broken fold into a `Pipeline`
error mentioning the path. -/
def get_value_by_path (value : Value) (path : String) : Except Pipeline Value :=
  match foldSegs value (segments path) with
  | some v => Except.ok v
  | none => Except.error (pathError value path)

/-- Model of the `FromYaml` trait (src/yutil.rs:12-38): a conversion
strategy for one output type bundles the `parse` attempt and the
diagnostic `type_str` label. -/
structure FromYaml (α : Type) where
  parse : Value → Option α
  type_str : String

/-- The error built by `FromYaml::try_from` when `parse` returns `None`
(src/yutil.rs:29-35). -/
def typeError {α : Type} (F : FromYaml α) (value : Value) : Pipeline :=
  Pipeline.new_debug
    ("Could not parse requested yaml value as " ++ F.type_str)
    ("Input object: " ++ debugRender value)

/-- Model of the provided method `FromYaml::try_from` (src/yutil.rs:26-37):
wrap `parse`, turning `None` into a `Pipeline` error naming the requested
type and carrying a debug rendering of the offending value. -/
def FromYaml.try_from {α : Type} (F : FromYaml α) (value : Value) : Except Pipeline α :=
  match F.parse value with
  | some cv => Except.ok cv
  | none => Except.error (typeError F value)

/-- Model of `serde_yaml::Value::as_bool` (external crate): the `Bool`
payload on the `Bool` variant, nothing otherwise. -/
def Value.as_bool : Value → Option Bool
  | .bool b => some b
  | _ => none

/-- Model of `serde_yaml::Value::as_i64` (external crate): a signed copy of
an integer number; a non-negative integer converts when it fits in `i64`,
a float never does. -/
def Value.as_i64 : Value → Option Int
  | .number (.posInt n) => if n ≤ 9223372036854775807 then some (Int.ofNat n) else none
  | .number (.negInt i) => some i
  | _ => none

/-- Model of `serde_yaml::Value::as_u64` (external crate): the unsigned
payload on a non-negative integer number, nothing otherwise (negative
integers and floats do not convert). -/
def Value.as_u64 : Value → Option Nat
  | .number (.posInt n) => some n
  | _ => none

/-- Modelled from the spec: `serde_yaml::Value::as_f64`, the accessor the
`f64` strategy delegates to, lives in the external crate and is not under
`src/`. The spec's conversion contract (section 4.1) states that a float
is never coerced from an integer, so this model returns the float payload
(its bit pattern) only on the `Float` variant. -/
def Value.as_f64 : Value → Option Nat
  | .number (.float bits) => some bits
  | _ => none

/-- Model of `serde_yaml::Value::as_str` (external crate): the string
payload on the `String` variant, nothing otherwise. -/
def Value.as_str : Value → Option String
  | .string s => some s
  | _ => none

/-- Model of `serde_yaml::Value::as_mapping` (external crate): the entry
list on the `Mapping` variant, nothing otherwise. -/
def Value.as_mapping : Value → Option (List (Value × Value))
  | .mapping m => some m
  | _ => none

/-- Model of `serde_yaml::Value::as_sequence` (external crate): the element
list on the `Sequence` variant, nothing otherwise. -/
def Value.as_sequence : Value → Option (List Value)
  | .sequence xs => some xs
  | _ => none

/-- The `impl FromYaml for bool` generated by `impl_from_yaml_cp!`
(src/yutil.rs:62-78): scalar type labels carry a `$` prefix. -/
def boolFY : FromYaml Bool :=
  { parse := Value.as_bool, type_str := "$bool" }

/-- The `impl FromYaml for i64` generated by `impl_from_yaml_cp!`. -/
def i64FY : FromYaml Int :=
  { parse := Value.as_i64, type_str := "$i64" }

/-- The `impl FromYaml for u64` generated by `impl_from_yaml_cp!`. -/
def u64FY : FromYaml Nat :=
  { parse := Value.as_u64, type_str := "$u64" }

/-- The `impl FromYaml for f64` generated by `impl_from_yaml_cp!`. -/
def f64FY : FromYaml Nat :=
  { parse := Value.as_f64, type_str := "$f64" }

/-- The `impl FromYaml for str` generated by `impl_from_yaml_ref!`
(src/yutil.rs:41-57): reference type labels have no prefix. -/
def strFY : FromYaml String :=
  { parse := Value.as_str, type_str := "str" }

/-- The `impl FromYaml for Mapping` generated by `impl_from_yaml_ref!`. -/
def mappingFY : FromYaml (List (Value × Value)) :=
  { parse := Value.as_mapping, type_str := "Mapping" }

/-- The `impl FromYaml for Sequence` generated by `impl_from_yaml_ref!`. -/
def sequenceFY : FromYaml (List Value) :=
  { parse := Value.as_sequence, type_str := "Sequence" }

/-- Model of `get_typed_value_by_path` (src/yutil.rs:128-134): resolve the
path, propagating a resolution error with `?`, then convert the resolved
value with the strategy's `try_from`. -/
def get_typed_value_by_path {α : Type} (F : FromYaml α) (value : Value) (path : String) :
    Except Pipeline α :=
  match get_value_by_path value path with
  | Except.ok v => F.try_from v
  | Except.error e => Except.error e

/-- The single car object of the test fixture of `src/yutil.rs` (tests
module, src/yutil.rs:145-162). -/
def testCar : Value :=
  .mapping
    [ (.string "name", .string "Ford Mustang"),
      (.string "age", .number (.posInt 5)),
      (.string "last_inspection", .mapping [(.string "date", .string "2020-01-05")]) ]

/-- The example document of the test fixture of `src/yutil.rs` (the float
`214.67` is written as its IEEE-754 bit pattern). -/
def testYaml : Value :=
  .mapping
    [ (.string "name", .string "John Doe"),
      (.string "adult", .bool true),
      (.string "age", .number (.posInt 22)),
      (.string "score", .number (.float 0x406AD570A3D70A3D)),
      (.string "rank_delta", .number (.negInt (-10))),
      (.string "cars_owned", .sequence [testCar]) ]

/-- Specification-side description of successful traversal, following the
spec's words: every segment, in order, is found as a key in a `Mapping`
node starting from the root, and the terminal value is reached by those
successive map lookups. -/
inductive ResolvesChain : Value → List String → Value → Prop where
  | nil (v : Value) : ResolvesChain v [] v
  | cons {m : List (Value × Value)} {k : String} {v w : Value} {ks : List String} :
      mapGet m k = some v → ResolvesChain v ks w →
      ResolvesChain (Value.mapping m) (k :: ks) w

mutual

/-- No mapping reachable through nested mapping values binds the
empty-string key. (The traversal of `get_value_by_path` only ever descends
into mapping values, so this is the relevant reachable set.) -/
def noEmptyKey : Value → Bool
  | .mapping m => noEmptyKeyEntries m
  | _ => true

/-- Entry-list form of `noEmptyKey`. -/
def noEmptyKeyEntries : List (Value × Value) → Bool
  | [] => true
  | (k, v) :: rest =>
    !(stringKeyMatches "" k) && noEmptyKey v && noEmptyKeyEntries rest

end

/-- Splitting never produces an empty list of segments: even the empty
input yields the single empty segment, as Rust's `split` does. -/
theorem splitDot_ne_nil (l : List Char) : splitDot l ≠ [] := by
  cases l with
  | nil => simp [splitDot]
  | cons c cs =>
    by_cases hc : c = '.'
    · simp [splitDot, hc]
    · simp only [splitDot, if_neg hc]
      cases h : splitDot cs <;> simp

/-- Segment-list form of `splitDot_ne_nil`. -/
theorem segments_ne_nil (path : String) : segments path ≠ [] := by
  intro h
  exact splitDot_ne_nil path.data (List.map_eq_nil_iff.mp h)

/-- Splitting distributes over a separator: the segments of
`l ++ "." ++ m` are the segments of `l` followed by the segments of `m`. -/
theorem splitDot_append (l m : List Char) :
    splitDot (l ++ '.' :: m) = splitDot l ++ splitDot m := by
  induction l with
  | nil => simp [splitDot]
  | cons c cs ih =>
    by_cases hc : c = '.'
    · simp [splitDot, hc, ih]
    · have h1 : splitDot ((c :: cs) ++ '.' :: m) =
          match splitDot (cs ++ '.' :: m) with
          | [] => [[c]]
          | s :: rest => (c :: s) :: rest := by
        simp [splitDot, hc]
      rw [h1, ih]
      cases h : splitDot cs with
      | nil => exact absurd h (splitDot_ne_nil cs)
      | cons s rest => simp [splitDot, hc, h]

/-- A successful chain of map lookups is exactly a completed fold. -/
theorem foldSegs_of_chain {a : Value} {ks : List String} {w : Value}
    (h : ResolvesChain a ks w) : foldSegs a ks = some w := by
  induction h with
  | nil v => rfl
  | cons hget _ ih => simp [foldSegs, hget, ih]

/-- The fold over concatenated segment lists runs the first list, then the
second from where the first stopped. -/
theorem foldSegs_append (a : Value) (l₁ l₂ : List String) :
    foldSegs a (l₁ ++ l₂) =
      match foldSegs a l₁ with
      | some b => foldSegs b l₂
      | none => none := by
  induction l₁ generalizing a with
  | nil => simp [foldSegs]
  | cons k rest ih =>
    cases a with
    | null => rfl
    | bool b => rfl
    | number n => rfl
    | string s => rfl
    | sequence xs => rfl
    | mapping m =>
      simp only [List.cons_append, foldSegs]
      cases mapGet m k with
      | some v => exact ih v
      | none => rfl

/-- A value looked up in a mapping is structurally smaller than the
mapping node it came from. -/
theorem mapGet_sizeOf_lt {m : List (Value × Value)} {key : String} {v : Value}
    (h : mapGet m key = some v) : sizeOf v < sizeOf (Value.mapping m) := by
  simp only [mapGet, Option.map_eq_some'] at h
  obtain ⟨p, hfind, hv⟩ := h
  have hmem : p ∈ m := List.mem_of_find?_eq_some hfind
  have h1 : sizeOf p < sizeOf m := List.sizeOf_lt_of_mem hmem
  obtain ⟨k1, v1⟩ := p
  cases hv
  show sizeOf v1 < sizeOf (Value.mapping m)
  have h3 : sizeOf (Value.mapping m) = 1 + sizeOf m := by simp
  simp only [Prod.mk.sizeOf_spec] at h1
  omega

/-- A completed fold never grows the value: the result is the accumulator
itself or a structurally smaller descendant. -/
theorem foldSegs_sizeOf_le {ks : List String} {a w : Value}
    (h : foldSegs a ks = some w) : sizeOf w ≤ sizeOf a := by
  induction ks generalizing a with
  | nil =>
    simp only [foldSegs, Option.some.injEq] at h
    subst h
    exact le_rfl
  | cons k rest ih =>
    cases a with
    | null => exact absurd h (by simp [foldSegs])
    | bool b => exact absurd h (by simp [foldSegs])
    | number n => exact absurd h (by simp [foldSegs])
    | string s => exact absurd h (by simp [foldSegs])
    | sequence xs => exact absurd h (by simp [foldSegs])
    | mapping m =>
      simp only [foldSegs] at h
      cases hmg : mapGet m k with
      | some v =>
        rw [hmg] at h
        exact le_of_lt (lt_of_le_of_lt (ih h) (mapGet_sizeOf_lt hmg))
      | none =>
        rw [hmg] at h
        exact absurd h (by simp)

/-- Unfolding lemma for `mapGet` on a non-empty mapping: the head entry is
consulted first, then the tail. -/
theorem mapGet_cons (k v : Value) (rest : List (Value × Value)) (key : String) :
    mapGet ((k, v) :: rest) key =
      if stringKeyMatches key k then some v else mapGet rest key := by
  cases hk : stringKeyMatches key k with
  | true => simp [mapGet, List.find?, hk]
  | false => simp [mapGet, List.find?, hk]

/-- A mapping whose entries pass `noEmptyKeyEntries` has no binding for
the empty-string key. -/
theorem mapGet_empty_of_noEmptyKeyEntries {m : List (Value × Value)}
    (h : noEmptyKeyEntries m = true) : mapGet m "" = none := by
  induction m with
  | nil => rfl
  | cons p rest ih =>
    obtain ⟨k, v⟩ := p
    simp only [noEmptyKeyEntries, Bool.and_eq_true] at h
    obtain ⟨⟨hk, _⟩, hrest⟩ := h
    rw [mapGet_cons, if_neg (by simp_all)]
    exact ih hrest

/-- Values looked up in a mapping passing `noEmptyKeyEntries` again pass
`noEmptyKey`. -/
theorem noEmptyKey_of_mapGet {m : List (Value × Value)} {key : String} {v : Value}
    (h : noEmptyKeyEntries m = true) (hg : mapGet m key = some v) :
    noEmptyKey v = true := by
  induction m with
  | nil => simp [mapGet, List.find?] at hg
  | cons p rest ih =>
    obtain ⟨k, w⟩ := p
    simp only [noEmptyKeyEntries, Bool.and_eq_true] at h
    obtain ⟨⟨_, hw⟩, hrest⟩ := h
    rw [mapGet_cons] at hg
    by_cases hp : stringKeyMatches key k = true
    · rw [if_pos hp] at hg
      cases hg
      exact hw
    · rw [if_neg hp] at hg
      exact ih hrest hg

/-- If some segment of the remaining list is empty and no reachable
mapping binds the empty-string key, the fold breaks. -/
theorem foldSegs_none_of_empty_seg {ks : List String} {a : Value}
    (ha : noEmptyKey a = true) (hmem : "" ∈ ks) : foldSegs a ks = none := by
  induction ks generalizing a with
  | nil => cases hmem
  | cons k rest ih =>
    cases a with
    | null => rfl
    | bool b => rfl
    | number n => rfl
    | string s => rfl
    | sequence xs => rfl
    | mapping m =>
      have hm : noEmptyKeyEntries m = true := by simpa [noEmptyKey] using ha
      by_cases hk : k = ""
      · subst hk
        simp [foldSegs, mapGet_empty_of_noEmptyKeyEntries hm]
      · have hmem' : "" ∈ rest := by
          rcases List.mem_cons.mp hmem with h | h
          · exact absurd h.symm hk
          · exact h
        simp only [foldSegs]
        cases hmg : mapGet m k with
        | some v => exact ih (noEmptyKey_of_mapGet hm hmg) hmem'
        | none => rfl

/-- C1: for every root value and every non-empty, well-formed dotted path
(no leading, trailing, or doubled dot, so no empty segment) whose every
segment, in order, is found as a key in a Mapping node starting from the
root, `get_value_by_path` returns `Ok` of exactly the terminal value
reached by those successive map lookups. -/
theorem get_value_by_path_returns_chain_target (root : Value) (path : String) (w : Value)
    (hne : path ≠ "") (hwf : ∀ s ∈ segments path, s ≠ "")
    (hchain : ResolvesChain root (segments path) w) :
    get_value_by_path root path = Except.ok w := by
  simp [get_value_by_path, foldSegs_of_chain hchain]

/-- Witness for C1: the two-segment path "a.b" on the document
`a ↦ (b ↦ true)` resolves to `true`. -/
theorem get_value_by_path_returns_chain_target_witness :
    get_value_by_path
      (Value.mapping [(Value.string "a", Value.mapping [(Value.string "b", Value.bool true)])])
      "a.b" = Except.ok (Value.bool true) :=
  get_value_by_path_returns_chain_target _ "a.b" _ (by decide) (by decide)
    (ResolvesChain.cons rfl (ResolvesChain.cons rfl (ResolvesChain.nil _)))

/-- C2 counterexample: the claim says the empty path fails for every root
value and that malformed paths fail before any traversal, but the code
splits the empty path into one empty segment and looks it up like any
other key, so on a mapping that binds the empty-string key the empty path
succeeds. -/
theorem get_value_by_path_empty_path_can_succeed :
    get_value_by_path (Value.mapping [(Value.string "", Value.null)]) "" =
      Except.ok Value.null := rfl

/-- C2 amended: on every root value in which no mapping reachable through
nested mapping values binds the empty-string key, `get_value_by_path`
fails on every path yielding an empty segment; the empty path, a leading
dot, a trailing dot, and a doubled dot all yield an empty segment. The
empty segment is looked up like any other key, during traversal, not
rejected beforehand. -/
theorem get_value_by_path_fails_on_empty_segment :
    (∀ (root : Value) (path : String), noEmptyKey root = true → "" ∈ segments path →
        get_value_by_path root path = Except.error (pathError root path))
    ∧ ("" ∈ segments "")
    ∧ (∀ p : String, "" ∈ segments ("." ++ p))
    ∧ (∀ p : String, "" ∈ segments (p ++ "."))
    ∧ (∀ p q : String, "" ∈ segments (p ++ "." ++ "." ++ q)) := by
  refine ⟨?_, by decide, ?_, ?_, ?_⟩
  · intro root path ha hmem
    simp [get_value_by_path, foldSegs_none_of_empty_seg ha hmem]
  · intro p
    have hdata : ("." ++ p).data = '.' :: p.data := by
      simp [String.data_append]
    have hseg : segments ("." ++ p) =
        String.mk [] :: (splitDot p.data).map (fun l => String.mk l) := by
      simp [segments, hdata, splitDot]
    rw [hseg]
    exact List.mem_cons_self _ _
  · intro p
    have hdata : (p ++ ".").data = p.data ++ '.' :: [] := by
      simp [String.data_append]
    have hseg : segments (p ++ ".") =
        (splitDot p.data).map (fun l => String.mk l) ++ [String.mk []] := by
      simp [segments, hdata, splitDot_append, splitDot]
    rw [hseg]
    exact List.mem_append_right _ (List.mem_cons_self _ _)
  · intro p q
    have hdata : (p ++ "." ++ "." ++ q).data = p.data ++ '.' :: ('.' :: q.data) := by
      simp [String.data_append]
    have hseg : segments (p ++ "." ++ "." ++ q) =
        (splitDot p.data).map (fun l => String.mk l) ++
          (String.mk [] :: (splitDot q.data).map (fun l => String.mk l)) := by
      simp [segments, hdata, splitDot_append, splitDot]
    rw [hseg]
    exact List.mem_append_right _ (List.mem_cons_self _ _)

/-- Witness for C2 (amended part): the malformed path "." fails on a
one-entry document without empty keys, with the path-not-found error. -/
theorem get_value_by_path_fails_on_empty_segment_witness :
    noEmptyKey (Value.mapping [(Value.string "a", Value.null)]) = true
    ∧ ("" ∈ segments ".")
    ∧ get_value_by_path (Value.mapping [(Value.string "a", Value.null)]) "." =
        Except.error (pathError (Value.mapping [(Value.string "a", Value.null)]) ".") :=
  ⟨by decide, by decide,
    get_value_by_path_fails_on_empty_segment.1
      (Value.mapping [(Value.string "a", Value.null)]) "." (by decide) (by decide)⟩

/-- C3: `get_typed_value_by_path` is exactly `try_from` composed onto
`get_value_by_path` with the resolution error propagated by early return:
a resolution failure is returned unchanged before any type check, and on a
successfully resolved value the result is the strategy's `try_from` of
that value. -/
theorem get_typed_value_by_path_composes :
    ∀ (α : Type) (F : FromYaml α) (root : Value) (path : String),
      get_typed_value_by_path F root path =
        Except.bind (get_value_by_path root path) (fun v => F.try_from v)
      ∧ (∀ e, get_value_by_path root path = Except.error e →
          get_typed_value_by_path F root path = Except.error e)
      ∧ (∀ v, get_value_by_path root path = Except.ok v →
          get_typed_value_by_path F root path = F.try_from v) := by
  intro α F root path
  refine ⟨?_, ?_, ?_⟩
  · cases h : get_value_by_path root path with
    | ok v => simp [get_typed_value_by_path, h, Except.bind]
    | error e => simp [get_typed_value_by_path, h, Except.bind]
  · intro e he
    simp [get_typed_value_by_path, he]
  · intro v hv
    simp [get_typed_value_by_path, hv]

/-- Witness for C3: requesting `bool` at the existing path "adult" of the
test document is the conversion applied to the resolved value. -/
theorem get_typed_value_by_path_composes_witness :
    get_typed_value_by_path boolFY testYaml "adult" = boolFY.try_from (Value.bool true) :=
  (get_typed_value_by_path_composes Bool boolFY testYaml "adult").2.2 (Value.bool true) rfl

/-- C4: no conversion strategy coerces across variants: the `f64` strategy
rejects both integer variants, the `i64` and `u64` strategies reject
floats, and the `bool` strategy rejects every non-Bool value. -/
theorem parse_rejects_cross_variant_values :
    (∀ n : Nat, f64FY.parse (Value.number (Number.posInt n)) = none)
    ∧ (∀ i : Int, f64FY.parse (Value.number (Number.negInt i)) = none)
    ∧ (∀ bits : Nat, i64FY.parse (Value.number (Number.float bits)) = none)
    ∧ (∀ bits : Nat, u64FY.parse (Value.number (Number.float bits)) = none)
    ∧ (∀ v : Value, (∀ b : Bool, v ≠ Value.bool b) → boolFY.parse v = none) := by
  refine ⟨fun n => rfl, fun i => rfl, fun bits => rfl, fun bits => rfl, ?_⟩
  intro v hv
  cases v with
  | bool b => exact absurd rfl (hv b)
  | null => rfl
  | number n => rfl
  | string s => rfl
  | sequence xs => rfl
  | mapping m => rfl

/-- Witness for C4: the `bool` strategy rejects the unsigned integer 22. -/
theorem parse_rejects_cross_variant_values_witness :
    boolFY.parse (Value.number (Number.posInt 22)) = none :=
  parse_rejects_cross_variant_values.2.2.2.2 (Value.number (Number.posInt 22))
    (fun b h => Value.noConfusion h)

/-- C5: whenever traversal reaches a Sequence node with segments still to
consume, resolution fails (the fold treats any non-mapping accumulator as
a break), regardless of the segment's text; in particular
"cars_owned.0.name" fails on the example document even though the segment
"0" names a valid index. -/
theorem get_value_by_path_fails_on_sequence_node :
    (∀ (root : Value) (path : String) (pre : List String) (seg : String)
        (rest : List String) (xs : List Value),
        segments path = pre ++ seg :: rest →
        ResolvesChain root pre (Value.sequence xs) →
        get_value_by_path root path = Except.error (pathError root path))
    ∧ get_value_by_path testYaml "cars_owned.0.name" =
        Except.error (pathError testYaml "cars_owned.0.name") := by
  constructor
  · intro root path pre seg rest xs hseg hchain
    have h1 : foldSegs root (segments path) = none := by
      rw [hseg, foldSegs_append, foldSegs_of_chain hchain]
      rfl
    simp [get_value_by_path, h1]
  · rfl

/-- Witness for C5: the sequence under "cars_owned" is reached with the
segments "0" and "name" still pending, so the path fails. -/
theorem get_value_by_path_fails_on_sequence_node_witness :
    segments "cars_owned.0.name" = ["cars_owned"] ++ "0" :: ["name"]
    ∧ get_value_by_path testYaml "cars_owned.0.name" =
        Except.error (pathError testYaml "cars_owned.0.name") :=
  ⟨rfl, get_value_by_path_fails_on_sequence_node.1 testYaml "cars_owned.0.name"
    ["cars_owned"] "0" ["name"] [testCar] rfl
    (ResolvesChain.cons rfl (ResolvesChain.nil _))⟩

/-- C6 counterexample: the claim quotes the short message as exactly
"Could not parse requested value as {type_name}", but the source writes
"Could not parse requested yaml value as {}" (src/yutil.rs:31), so the two
strings differ on a concrete mismatching conversion. -/
theorem try_from_message_says_yaml_value :
    boolFY.try_from (Value.number (Number.posInt 22)) =
      Except.error (typeError boolFY (Value.number (Number.posInt 22)))
    ∧ (typeError boolFY (Value.number (Number.posInt 22))).error_string =
        "Could not parse requested yaml value as $bool"
    ∧ (typeError boolFY (Value.number (Number.posInt 22))).error_string ≠
        "Could not parse requested value as $bool" :=
  ⟨rfl, by decide, by decide⟩

/-- C6 amended: for every value the strategy's `parse` rejects, `try_from`
fails with a Pipeline error whose short message is exactly
"Could not parse requested yaml value as {type_name}" (naming the
requested type via `type_str`) and whose diagnostic is a debug rendering
of the offending value. -/
theorem try_from_type_mismatch_error (α : Type) (F : FromYaml α) (v : Value)
    (h : F.parse v = none) :
    F.try_from v = Except.error (typeError F v)
    ∧ (typeError F v).error_string =
        "Could not parse requested yaml value as " ++ F.type_str
    ∧ (typeError F v).debug_string = some ("Input object: " ++ debugRender v) := by
  refine ⟨?_, rfl, rfl⟩
  simp [FromYaml.try_from, h]

/-- Witness for C6 (amended part): the string-slice strategy rejects a
boolean and produces the typed error. -/
theorem try_from_type_mismatch_error_witness :
    strFY.parse (Value.bool false) = none
    ∧ (strFY.try_from (Value.bool false) = Except.error (typeError strFY (Value.bool false))
        ∧ (typeError strFY (Value.bool false)).error_string =
            "Could not parse requested yaml value as " ++ strFY.type_str
        ∧ (typeError strFY (Value.bool false)).debug_string =
            some ("Input object: " ++ debugRender (Value.bool false))) :=
  ⟨rfl, try_from_type_mismatch_error String strFY (Value.bool false) rfl⟩

/-- C7: both accessors are pure functions of the root and the path in this
embedding (the source only ever reads through shared references), so two
calls with the same root and path yield equal results and leave the root
unchanged. -/
theorem resolve_and_get_typed_idempotent :
    ∀ (α : Type) (F : FromYaml α) (root : Value) (path : String),
      get_value_by_path root path = get_value_by_path root path
      ∧ get_typed_value_by_path F root path = get_typed_value_by_path F root path :=
  fun _ _ _ _ => ⟨rfl, rfl⟩

/-- C8: every Pipeline error either accessor can produce is built with
`Pipeline::new_debug`, so its optional diagnostic is always present even
though the error type permits omitting it. -/
theorem pipeline_errors_carry_diagnostic :
    (∀ (root : Value) (path : String) (e : Pipeline),
        get_value_by_path root path = Except.error e → e.debug_string.isSome = true)
    ∧ (∀ (α : Type) (F : FromYaml α) (v : Value) (e : Pipeline),
        F.try_from v = Except.error e → e.debug_string.isSome = true) := by
  constructor
  · intro root path e h
    simp only [get_value_by_path] at h
    cases hf : foldSegs root (segments path) with
    | some v => rw [hf] at h; simp at h
    | none =>
      rw [hf] at h
      simp only [Except.error.injEq] at h
      subst h
      rfl
  · intro α F v e h
    simp only [FromYaml.try_from] at h
    cases hp : F.parse v with
    | some cv => rw [hp] at h; simp at h
    | none =>
      rw [hp] at h
      simp only [Except.error.injEq] at h
      subst h
      rfl

/-- Witness for C8: the error for path "a" on a boolean root carries a
diagnostic. -/
theorem pipeline_errors_carry_diagnostic_witness :
    (pathError (Value.bool true) "a").debug_string.isSome = true :=
  pipeline_errors_carry_diagnostic.1 (Value.bool true) "a"
    (pathError (Value.bool true) "a") rfl

/-- C9: a successful resolution always performs at least one Mapping key
lookup starting from the root (the split never yields zero segments), and
the result is a strict descendant, never the root value itself. -/
theorem get_value_by_path_success_needs_lookup :
    ∀ (root : Value) (path : String) (w : Value),
      get_value_by_path root path = Except.ok w →
      (∃ (m : List (Value × Value)) (k : String) (rest : List String) (v : Value),
          root = Value.mapping m ∧ segments path = k :: rest ∧
          mapGet m k = some v ∧ foldSegs v rest = some w)
      ∧ w ≠ root := by
  intro root path w h
  have hf : foldSegs root (segments path) = some w := by
    simp only [get_value_by_path] at h
    cases hfs : foldSegs root (segments path) with
    | some v => rw [hfs] at h; simp at h; rw [h]
    | none => rw [hfs] at h; simp at h
  obtain ⟨k, rest, hseg⟩ : ∃ k rest, segments path = k :: rest := by
    cases hs : segments path with
    | nil => exact absurd hs (segments_ne_nil path)
    | cons k rest => exact ⟨k, rest, rfl⟩
  rw [hseg] at hf
  cases root with
  | null => simp [foldSegs] at hf
  | bool b => simp [foldSegs] at hf
  | number n => simp [foldSegs] at hf
  | string s => simp [foldSegs] at hf
  | sequence xs => simp [foldSegs] at hf
  | mapping m =>
    simp only [foldSegs] at hf
    cases hmg : mapGet m k with
    | some v =>
      rw [hmg] at hf
      refine ⟨⟨m, k, rest, v, rfl, hseg, hmg, hf⟩, ?_⟩
      intro hwr
      have h1 : sizeOf w ≤ sizeOf v := foldSegs_sizeOf_le hf
      have h2 : sizeOf v < sizeOf (Value.mapping m) := mapGet_sizeOf_lt hmg
      rw [hwr] at h1
      omega
    | none =>
      rw [hmg] at hf
      exact absurd hf (by simp)

/-- Witness for C9: resolving "name" on the test document goes through one
lookup and does not return the root. -/
theorem get_value_by_path_success_needs_lookup_witness :
    (∃ (m : List (Value × Value)) (k : String) (rest : List String) (v : Value),
        testYaml = Value.mapping m ∧ segments "name" = k :: rest ∧
        mapGet m k = some v ∧ foldSegs v rest = some (Value.string "John Doe"))
    ∧ Value.string "John Doe" ≠ testYaml :=
  get_value_by_path_success_needs_lookup testYaml "name" (Value.string "John Doe") rfl

/-- C10: a root that is not a Mapping fails for every path whatsoever: the
split always yields at least one segment, and the very first fold step
breaks on a non-mapping accumulator. -/
theorem get_value_by_path_fails_on_non_mapping_root :
    ∀ (root : Value) (path : String), (∀ m, root ≠ Value.mapping m) →
      get_value_by_path root path = Except.error (pathError root path) := by
  intro root path hroot
  obtain ⟨k, rest, hseg⟩ : ∃ k rest, segments path = k :: rest := by
    cases hs : segments path with
    | nil => exact absurd hs (segments_ne_nil path)
    | cons k rest => exact ⟨k, rest, rfl⟩
  have hf : foldSegs root (segments path) = none := by
    rw [hseg]
    cases root with
    | mapping m => exact absurd rfl (hroot m)
    | null => rfl
    | bool b => rfl
    | number n => rfl
    | string s => rfl
    | sequence xs => rfl
  simp [get_value_by_path, hf]

/-- Witness for C10: a bare boolean root fails to resolve the path "a". -/
theorem get_value_by_path_fails_on_non_mapping_root_witness :
    get_value_by_path (Value.bool true) "a" =
      Except.error (pathError (Value.bool true) "a") :=
  get_value_by_path_fails_on_non_mapping_root (Value.bool true) "a"
    (fun m h => Value.noConfusion h)
